import Mathlib

/-!
# Variance Dashboard — verification of the aggregation / report pipeline

Shallow embedding of the non-UI logic of `streamlit_app.py` (a Streamlit
variance dashboard: KPI aggregation, rankings, pivot statistics, chart-data
shaping, report-date derivation for HTML export).

Modelling conventions:
* A pandas `DataFrame` after the rename step is a `Table`: a list of rows plus
  one boolean per canonical column recording whether that column exists
  (`"Alert" in df.columns` etc.).  A missing cell (pandas `NaN`) is `none`.
* Numeric delay values are `ℚ` (the source never relies on float rounding
  except in `round(_, 2)`, modelled exactly on rationals with ties-to-even).
* pandas boolean comparisons against `NaN` are `false` (`NaN > 100` is false),
  `notna` is `Option.isSome`, `dropna`/value-skipping is `List.filterMap`.
* Computations that can raise in Python are `Except String`; a block that is
  skipped by an `if`-guard yields `none` / a sentinel, mirroring the source.
-/

namespace VarDash

/-- A calendar date as produced by `pd.to_datetime(...).dt.date` (line 74). -/
structure SDate where
  year : Nat
  month : Nat
  day : Nat
deriving DecidableEq, Repr

/-- One row of the normalized DataFrame.  Every canonical field is optional:
pandas cells can be `NaN` independently of column presence. -/
structure JobRecord where
  date : Option SDate := none
  machine : Option String := none
  itemCode : Option String := none
  delay : Option ℚ := none
  alert : Option String := none
  reason : Option String := none
  note : Option String := none
deriving DecidableEq, Repr

instance : Inhabited JobRecord := ⟨{}⟩

/-- The normalized DataFrame: rows plus column-presence flags (the source
guards almost every computation with `"<col>" in df.columns`). -/
structure Table where
  hasDate : Bool := false
  hasMachine : Bool := false
  hasItemCode : Bool := false
  hasDelay : Bool := false
  hasAlert : Bool := false
  hasReason : Bool := false
  rows : List JobRecord := []
deriving DecidableEq, Repr

/-- Round half to even (banker's rounding), the rounding used by Python's
built-in `round`.  (On the exact rational values arising here the binary
float seen by CPython is never an exact tie, so ties-to-even on `ℚ` is the
faithful idealization.) -/
def roundHalfEven (x : ℚ) : ℤ :=
  let f : ℤ := ⌊x⌋
  let r : ℚ := x - f
  if r < 1/2 then f
  else if 1/2 < r then f + 1
  else if f % 2 = 0 then f else f + 1

/-- Python `round(x, 2)`. -/
def pyRound2 (x : ℚ) : ℚ := (roundHalfEven (x * 100) : ℚ) / 100

/-- `total_jobs = len(df)` (line 81). -/
def total_jobs (t : Table) : Nat := t.rows.length

/-- `num_alerts = df["Alert"].notna().sum() if "Alert" in df.columns else 0`
(line 82).  Note `notna` counts every present value, the empty string
included. -/
def num_alerts (t : Table) : Nat :=
  if t.hasAlert then t.rows.countP (fun r => r.alert.isSome) else 0

/-- `alert_rate = round(num_alerts / total_jobs * 100, 2) if total_jobs else 0`
(line 83). -/
def alert_rate (t : Table) : ℚ :=
  if total_jobs t ≠ 0 then
    pyRound2 ((num_alerts t : ℚ) / (total_jobs t : ℚ) * 100)
  else 0

/-- `df["Delay (min)"] > c` row test: pandas comparison with `NaN` is
false, so rows with a missing delay never pass a threshold filter. -/
def delayGtB (r : JobRecord) (c : ℚ) : Bool :=
  match r.delay with
  | some d => decide (c < d)
  | none => false

/-! ## Worst job and in-view threshold counts (lines 102–119) -/

/-- Helper for `Series.idxmax()`: scan rows from position `i`, skipping `NaN`
delays, returning the position and value of the first occurrence of the
maximum delay, or `none` when every delay is `NaN`. -/
def idxmaxAux (i : Nat) : List JobRecord → Option (Nat × ℚ)
  | [] => none
  | r :: rest =>
    let tail := idxmaxAux (i + 1) rest
    match r.delay with
    | none => tail
    | some d =>
      match tail with
      | none => some (i, d)
      | some q => if d < q.2 then some q else some (i, d)

/-- `df["Delay (min)"].idxmax()` (line 103): label of the first row attaining
the maximum delay, skipping `NaN`; pandas raises when every value is `NaN`
(modelled as `none`, turned into the raised message by `worst_job`). -/
def idxmaxDelay (rows : List JobRecord) : Option Nat :=
  (idxmaxAux 0 rows).map (fun p => p.1)

/-- Lines 102–103:
`if "Delay (min)" in df.columns and not df.empty: worst_job = df.loc[df["Delay (min)"].idxmax()]`.
`.ok none` means the block was skipped by the guard; `.error` models the
exception pandas raises for an all-`NaN` `idxmax`. -/
def worst_job (t : Table) : Except String (Option JobRecord) :=
  if t.hasDelay && !t.rows.isEmpty then
    match idxmaxDelay t.rows with
    | some i => .ok (some (t.rows.getD i default))
    | none => .error "attempt to get argmax of an empty sequence"
  else .ok none

/-- Lines 112–114: the in-view threshold counts, computed inside the
`if "Delay (min)" in df.columns and not df.empty` block, hence skipped
(`none`) rather than raising when the delay column is absent. -/
def threshold_counts_view (t : Table) : Option (Nat × Nat) :=
  if t.hasDelay && !t.rows.isEmpty then
    some (((t.rows.filter (fun r => delayGtB r 100)).length),
          ((t.rows.filter (fun r => delayGtB r 200)).length))
  else none

/-! ## Export-path threshold counts (lines 578–579) -/

/-- Line 578: `delay_100 = df[df["Delay (min)"] > 100].shape[0]`, executed in
the export path with no column-presence guard: the column access raises
`KeyError` when `"Delay (min)"` is absent. -/
def delay_100_export (t : Table) : Except String Nat :=
  if t.hasDelay then .ok ((t.rows.filter (fun r => delayGtB r 100)).length)
  else .error "KeyError: Delay (min)"

/-- Line 579: `delay_200 = df[df["Delay (min)"] > 200].shape[0]`, same
unguarded column access. -/
def delay_200_export (t : Table) : Except String Nat :=
  if t.hasDelay then .ok ((t.rows.filter (fun r => delayGtB r 200)).length)
  else .error "KeyError: Delay (min)"

/-! ## Report date (lines 288–289) -/

/-- Strict lexicographic order on calendar dates (the order pandas sorts the
tied values of `mode()` by). -/
def dateLt (a b : SDate) : Bool :=
  decide (a.year < b.year) ||
    (decide (a.year = b.year) &&
      (decide (a.month < b.month) ||
        (decide (a.month = b.month) && decide (a.day < b.day))))

/-- The parsed (non-`NaT`) dates of the table, in row order
(`df["Date"].dropna()`). -/
def tableDates (t : Table) : List SDate := t.rows.filterMap (fun r => r.date)

/-- `Series.mode()[0]`: among the values of maximal multiplicity in `ds`,
the smallest date (pandas `mode` returns all maximizers sorted ascending and
`[0]` takes the first); `none` on an empty series, where the positional
lookup `[0]` would raise. -/
def pickMode (ds : List SDate) : List SDate → Option SDate
  | [] => none
  | d :: rest =>
    match pickMode ds rest with
    | none => some d
    | some c =>
      if ds.count c < ds.count d ∨ (ds.count d = ds.count c ∧ dateLt d c = true)
      then some d else some c

/-- `df["Date"].dropna().mode()[0]` for the whole table. -/
def modeDate (ds : List SDate) : Option SDate := pickMode ds ds

/-- The value bound to `report_date` on line 288: either a date or the
literal fallback string `"N/A"`. -/
inductive ReportDate where
  | date (d : SDate)
  | na
deriving DecidableEq, Repr

/-- Line 288:
`report_date = df["Date"].dropna().mode()[0] if "Date" in df.columns else "N/A"`.
The `[0]` lookup raises (`.error`) when the dropna'd column is empty. -/
def report_date (t : Table) : Except String ReportDate :=
  if t.hasDate then
    match modeDate (tableDates t) with
    | some d => .ok (.date d)
    | none => .error "index 0 is out of bounds: mode of an empty series"
  else .ok .na

/-- Zero-padded two-digit decimal (strftime `%d` / `%m`). -/
def pad2 (n : Nat) : String := if n < 10 then "0" ++ toString n else toString n

/-- Four-digit year (strftime `%Y`). -/
def pad4 (n : Nat) : String :=
  if n < 10 then "000" ++ toString n
  else if n < 100 then "00" ++ toString n
  else if n < 1000 then "0" ++ toString n
  else toString n

/-- `strftime("%d/%m/%Y")`: day/month/year. -/
def formatDMY (d : SDate) : String :=
  pad2 d.day ++ "/" ++ pad2 d.month ++ "/" ++ pad4 d.year

/-- Line 289: `report_date_str = pd.to_datetime(report_date).strftime("%d/%m/%Y")`.
When `report_date` is the fallback string `"N/A"`, `pd.to_datetime` cannot
parse it and raises — modelled as `.error`. -/
def report_date_str (t : Table) : Except String String :=
  match report_date t with
  | .ok (.date d) => .ok (formatDMY d)
  | .ok .na => .error "Unknown datetime string format: N/A"
  | .error e => .error e

/-! ## Duplicate-column drop (lines 76–78) -/

/-- Line 77: the canonical column names the source intends to de-duplicate. -/
def cols_to_drop : List String :=
  ["Date", "Machine", "ItemCode", "Delay (min)", "Alert", "Reason", "Note"]

/-- `Index.duplicated()` accumulator: a position is marked `true` when its
name already occurred at an earlier position. -/
def dupMaskAux (seen : List String) : List String → List Bool
  | [] => []
  | c :: cs => seen.contains c :: dupMaskAux (c :: seen) cs

/-- `df.columns.duplicated()` (line 78). -/
def duplicatedMask (cols : List String) : List Bool := dupMaskAux [] cols

/-- numpy scalar equality between a Python `str` and a numpy bool: values of
these unrelated dtypes always compare unequal. -/
def npEqStrBool (_s : String) (_b : Bool) : Bool := false

/-- Python `s in arr` for a numpy array `arr` of bools: elementwise `==`
against `s` followed by `any()`. -/
def npStrInBoolArray (s : String) (mask : List Bool) : Bool :=
  mask.any (fun b => npEqStrBool s b)

/-- Line 78:
`df.drop(columns=[c for c in cols_to_drop if c in df.columns.duplicated()], errors="ignore")`
applied to the header list (`df.drop` removes every column bearing a dropped
name). -/
def dropDuplicateCols (cols : List String) : List String :=
  let toDrop := cols_to_drop.filter (fun c => npStrInBoolArray c (duplicatedMask cols))
  cols.filter (fun c => !(toDrop.contains c))

/-! ## Machines-by-delay ranking (lines 130–138, 597–604) -/

/-- `df["Delay (min)"] > 0` row test. -/
def delayPos (r : JobRecord) : Bool :=
  match r.delay with
  | some d => decide (0 < d)
  | none => false

/-- `df[df["Delay (min)"] > 0]`: the rows with a present, strictly positive
delay. -/
def posRows (t : Table) : List JobRecord := t.rows.filter delayPos

/-- The keys of `groupby("Machine")`: the distinct machine names observed in
the filtered rows (rows with a `NaN` machine are dropped by `groupby`),
emitted in ascending order (`groupby` default `sort=True`). -/
def machineKeys (t : Table) : List String :=
  List.insertionSort (fun a b => a ≤ b) ((posRows t).filterMap (fun r => r.machine)).dedup

/-- The group-reduce `["Delay (min)"].sum()` for one machine: the sum of that
machine's strictly positive delays. -/
def machinePosSum (t : Table) (m : String) : ℚ :=
  (((posRows t).filter (fun r => decide (r.machine = some m))).filterMap
    (fun r => r.delay)).sum

/-- `sort_values(ascending=False)` comparison on (key, value) pairs:
descending by value.  (numpy's sort on these small arrays is its insertion
sort, which is stable, so a stable descending sort is the faithful model.) -/
def sndDesc {β : Type} [LinearOrder β] (a b : String × β) : Prop := b.2 ≤ a.2

instance {β : Type} [LinearOrder β] : DecidableRel (@sndDesc β _) :=
  fun a b => inferInstanceAs (Decidable (b.2 ≤ a.2))

instance {β : Type} [LinearOrder β] : IsTotal (String × β) sndDesc :=
  ⟨fun a b => le_total b.2 a.2⟩

instance {β : Type} [LinearOrder β] : IsTrans (String × β) sndDesc :=
  ⟨fun _ _ _ h1 h2 => le_trans h2 h1⟩

/-- Lines 131–134 / 598–604:
`df[df["Delay (min)"] > 0].groupby("Machine")["Delay (min)"].sum().sort_values(ascending=False).head(3)`
under the guard `"Delay (min)" in df.columns and "Machine" in df.columns`,
else the empty series (line 138). -/
def delay_by_machine (t : Table) : List (String × ℚ) :=
  if t.hasDelay && t.hasMachine then
    (List.insertionSort sndDesc
      ((machineKeys t).map (fun m => (m, machinePosSum t m)))).take 3
  else []

/-! ## Pivot statistics (lines 229–234, 250–256) -/

/-- The delay values contributing to the pivot cell `(machine, date)`:
rows matching both keys whose delay is present (`pivot_table` drops `NaN`
values of the aggregated column). -/
def pivotContrib (t : Table) (m : String) (d : SDate) : List ℚ :=
  (t.rows.filter (fun r =>
    decide (r.machine = some m) && decide (r.date = some d))).filterMap
    (fun r => r.delay)

/-- `pivot_table(..., aggfunc="mean")` cell (lines 229–234): `none` (blank in
the rendered grid) when no record contributes, else the arithmetic mean. -/
def pivotMean (t : Table) (m : String) (d : SDate) : Option ℚ :=
  let l := pivotContrib t m d
  if l.isEmpty then none else some (l.sum / (l.length : ℚ))

/-- The unbiased sample variance (divisor `n - 1`). -/
def sampleVar (l : List ℚ) : ℚ :=
  let n : ℚ := (l.length : ℚ)
  let μ : ℚ := l.sum / n
  ((l.map (fun x => (x - μ) ^ 2)).sum) / (n - 1)

/-- `pivot_table(..., aggfunc=["min","max","std"])` std cell (lines 250–255):
pandas `std` uses `ddof=1` and yields `NaN` (here `none`) for fewer than two
samples.  The defined value is the square of the pandas cell (the sample
variance): the square root is irrational in general, and definedness and
unbiasedness — all the spec constrains — are visible on the square. -/
def pivotStdSq (t : Table) (m : String) (d : SDate) : Option ℚ :=
  let l := pivotContrib t m d
  if l.length < 2 then none else some (sampleVar l)

/-! ## Reason distribution, Pareto and pie shaping (lines 169–221) -/

/-- `df["Reason"]` with `NaN` dropped, in row order. -/
def presentReasons (t : Table) : List String := t.rows.filterMap (fun r => r.reason)

/-- `count_by_reason = df["Reason"].value_counts()` (line 170): one pair per
distinct present reason, with its multiplicity, sorted descending by count
(`value_counts` drops `NaN` and sorts descending; the relative order of
equal counts is not constrained by any claim checked here). -/
def count_by_reason (t : Table) : List (String × ℕ) :=
  List.insertionSort sndDesc
    (((presentReasons t).dedup).map (fun s => (s, (presentReasons t).count s)))

/-- `np.cumsum`: running prefix sums. -/
def cumsum : List ℕ → List ℕ
  | [] => []
  | v :: vs => v :: (cumsum vs).map (fun c => v + c)

/-- Line 182: `cumulative = np.cumsum(values) / sum(values) * 100`. -/
def cumulative (vals : List ℕ) : List ℚ :=
  (cumsum vals).map (fun c : ℕ => (c : ℚ) / (vals.sum : ℚ) * 100)

/-- Python `max(values)` (line 208); the guard on line 169 ensures the list
is non-empty, so the base case `0` of the fold is never the answer. -/
def maxVal (vals : List ℕ) : ℕ := vals.foldl max 0

/-- Line 208: `explode = [0.1 if v == max(values) else 0 for v in values]`. -/
def explode (vals : List ℕ) : List ℚ :=
  vals.map (fun v => if v = maxVal vals then 1/10 else 0)

/-- Line 180: `values = count_by_reason.values` — the per-reason frequencies
in the order of the (descending) distribution; shared by the Pareto bars,
the cumulative series and the pie slices. -/
def chartValues (t : Table) : List ℕ := (count_by_reason t).map Prod.snd

/-! ## Concrete tables used by witnesses and counterexamples -/

/-- Three jobs, one alerted (the spec's §8 worked example). -/
def exT2 : Table :=
  { hasMachine := true, hasDate := true, hasDelay := true, hasAlert := true
    rows :=
      [ { machine := some "M1", delay := some 50 }
      , { machine := some "M1", delay := some 150, alert := some "X",
          reason := some "Setup" }
      , { machine := some "M2", delay := some (-10) } ] }

/-- Delay column present, one row, its delay value `NaN`. -/
def exT3 : Table := { hasDelay := true, rows := [{}] }

/-- Two machines tied on total positive delay, machine "B" encountered
first. -/
def exT5 : Table :=
  { hasDelay := true, hasMachine := true
    rows :=
      [ { machine := some "B", delay := some 5 }
      , { machine := some "A", delay := some 5 } ] }

/-- One row whose alert cell holds the empty string (present, not `NaN`). -/
def exT6 : Table := { hasAlert := true, rows := [ { alert := some "" } ] }

/-- Mixed alert cells: empty string, `NaN`, ordinary value. -/
def exT6b : Table :=
  { hasAlert := true
    rows := [ { alert := some "" }, {}, { alert := some "X" } ] }

/-- A table with no `Delay (min)` and no `Date` column (one row, machine
only): well-formed input for the field-missing scenario of the spec. -/
def noDelayTable : Table :=
  { hasMachine := true, rows := [ { machine := some "M1" } ] }

/-- A header list carrying a duplicated canonical name. -/
def dupHeaders : List String := ["Date", "Date", "Machine"]

/-- A pivot example: one cell with a single record, one machine whose only
record sits on a different date. -/
def exT7 : Table :=
  { hasMachine := true, hasDate := true, hasDelay := true
    rows :=
      [ { machine := some "M1", date := some ⟨2024, 1, 1⟩, delay := some 50 }
      , { machine := some "M2", date := some ⟨2024, 1, 2⟩, delay := some (-10) } ] }

/-- Reason column with a repeated top reason and one `NaN`. -/
def exT8 : Table :=
  { hasReason := true
    rows :=
      [ { reason := some "Setup" }
      , { reason := some "Setup" }
      , { reason := some "Material" }
      , {} ] }

/-- Date column where 5 Jan 2024 occurs twice and 7 Jan 2024 once. -/
def exT10 : Table :=
  { hasDate := true
    rows :=
      [ { date := some ⟨2024, 1, 5⟩ }
      , { date := some ⟨2024, 1, 7⟩ }
      , { date := some ⟨2024, 1, 5⟩ } ] }

end VarDash

namespace VarDash

/-- C2: for every RecordSet, `alertRate` is `round(alertedJobs / totalJobs *
100, 2)` whenever there is at least one job, and is exactly `0` (computed
without evaluating the division, hence without any fault) when
`totalJobs = 0`. -/
theorem c2_alert_rate (t : Table) :
    (total_jobs t ≠ 0 →
      alert_rate t = pyRound2 ((num_alerts t : ℚ) / (total_jobs t : ℚ) * 100)) ∧
    (total_jobs t = 0 → alert_rate t = 0) := by
  constructor
  · intro h
    simp [alert_rate, h]
  · intro h
    simp [alert_rate, h]

/-- Helper: with every delay cell `NaN`, the `idxmax` scan finds nothing. -/
theorem idxmaxAux_none_of_all_none :
    ∀ (l : List JobRecord) (i : Nat), (∀ r ∈ l, r.delay = none) →
      idxmaxAux i l = none := by
  intro l
  induction l with
  | nil => intro i _; rfl
  | cons a tl ih =>
    intro i h
    have ha : a.delay = none := h a (List.mem_cons_self a tl)
    have htl := ih (i + 1) (fun r hr => h r (List.mem_cons_of_mem a hr))
    simp [idxmaxAux, ha, htl]

/-- C1 (code bug): with the `Delay (min)` and `Date` columns absent, the
in-view threshold block is skipped harmlessly, but the export-path threshold
counts raise `KeyError` and the report-date derivation raises while parsing
its own `"N/A"` fallback — contradicting the field-missing policy that every
downstream computation degrades to zero/undefined and continues. -/
theorem c1_field_missing_bug :
    threshold_counts_view noDelayTable = none ∧
    delay_100_export noDelayTable = Except.error "KeyError: Delay (min)" ∧
    delay_200_export noDelayTable = Except.error "KeyError: Delay (min)" ∧
    report_date_str noDelayTable = Except.error "Unknown datetime string format: N/A" :=
  ⟨rfl, rfl, rfl, rfl⟩

/-- C3 counterexample: a non-empty table whose delay column is present but
holds only `NaN` makes the worst-job computation raise (the guard checks only
column presence and non-emptiness), instead of being skipped and reported as
"N/A". -/
theorem c3_worst_job_counterexample :
    worst_job exT3 = Except.error "attempt to get argmax of an empty sequence" := rfl

/-- C3 amended: the worst-job block is skipped only when the delay column is
absent or the table is empty; on a non-empty table whose delay column is
present but entirely `NaN`, the `idxmax` lookup raises an error (it is not
skipped, and no "N/A" is reported). -/
theorem c3_worst_job_amended (t : Table) (hcol : t.hasDelay = true)
    (hne : t.rows ≠ []) (hall : ∀ r ∈ t.rows, r.delay = none) :
    worst_job t = Except.error "attempt to get argmax of an empty sequence" := by
  have hmask : idxmaxDelay t.rows = none := by
    simp [idxmaxDelay, idxmaxAux_none_of_all_none t.rows 0 hall]
  have h1 : t.rows.isEmpty = false := by
    cases h : t.rows with
    | nil => exact absurd h hne
    | cons a l => rfl
  simp [worst_job, hcol, h1, hmask]

/-- Witness for the amended C3 at the concrete all-`NaN`-delay table. -/
theorem c3_worst_job_amended_witness :
    (exT3.hasDelay = true ∧ exT3.rows ≠ [] ∧ ∀ r ∈ exT3.rows, r.delay = none) ∧
    worst_job exT3 = Except.error "attempt to get argmax of an empty sequence" :=
  ⟨⟨rfl, by decide, by decide⟩,
    c3_worst_job_amended exT3 rfl (by decide) (by decide)⟩

/-- Helper: an `any` with a constantly-false predicate is false. -/
theorem any_const_false {α : Type} (l : List α) (p : α → Bool)
    (h : ∀ x, p x = false) : l.any p = false := by
  induction l with
  | nil => rfl
  | cons a tl ih => simp [List.any_cons, h a, ih]

/-- C4 (code bug): the duplicate-column drop of line 78 is a no-op for every
header list — `c in df.columns.duplicated()` asks whether a column *name* is
an element of a numpy array of *booleans*, which is always false — so a table
whose headers collide with a canonical name keeps both copies, contradicting
both the claim and the source's own comment "Drop duplicate columns if
already included". -/
theorem c4_duplicate_columns_bug :
    (∀ cols : List String, dropDuplicateCols cols = cols) ∧
    (dropDuplicateCols dupHeaders).count "Date" = 2 := by
  constructor
  · intro cols
    have hnp : ∀ c : String, npStrInBoolArray c (duplicatedMask cols) = false := by
      intro c
      exact any_const_false _ _ (fun b => rfl)
    simp [dropDuplicateCols, hnp]
  · rfl

/-- C6 counterexample: the single record carries the *empty string* in its
alert cell (a present value), and the code counts it as alerted (`notna`),
while the claim's "present and non-empty" criterion counts nothing. -/
theorem c6_empty_string_counterexample :
    num_alerts exT6 = 1 ∧
    exT6.rows.countP
      (fun r => r.alert.isSome && !(decide (r.alert = some ""))) = 0 :=
  ⟨rfl, rfl⟩

/-- C6 amended: a record counts toward `alertedJobs` iff its alert value is
present (not `NaN`) — an empty string is a present value and is counted;
with the alert column absent the count is 0. -/
theorem c6_alert_counting_amended (t : Table) :
    (t.hasAlert = true →
      num_alerts t = (t.rows.filter (fun r => r.alert.isSome)).length) ∧
    (t.hasAlert = false → num_alerts t = 0) := by
  constructor
  · intro h
    simp [num_alerts, h, List.countP_eq_length_filter]
  · intro h
    simp [num_alerts, h]

/-- Witness for the amended C6: empty string and "X" count, `NaN` does not. -/
theorem c6_alert_counting_amended_witness :
    exT6b.hasAlert = true ∧
    num_alerts exT6b = (exT6b.rows.filter (fun r => r.alert.isSome)).length ∧
    num_alerts exT6b = 2 :=
  ⟨rfl, (c6_alert_counting_amended exT6b).1 rfl, rfl⟩

/-- Helper: `orderedInsert` preserves a pairwise invariant `P`, provided `P`
holds backwards wherever the sort relation fails (the stability argument:
an element is only placed *after* elements it is strictly below). -/
theorem pairwise_orderedInsert {α : Type} (r : α → α → Prop) [DecidableRel r]
    (P : α → α → Prop) (hback : ∀ x y, ¬ r x y → P y x) (a : α) :
    ∀ l : List α, l.Pairwise P → (∀ b ∈ l, P a b) →
      (l.orderedInsert r a).Pairwise P := by
  intro l
  induction l with
  | nil =>
    intro _ _
    simp
  | cons b tl ih =>
    intro hl ha
    by_cases hr : r a b
    · rw [List.orderedInsert, if_pos hr]
      exact List.Pairwise.cons ha hl
    · rw [List.orderedInsert, if_neg hr]
      refine List.Pairwise.cons ?_ (ih hl.of_cons ?_)
      · intro x hx
        rcases (List.mem_orderedInsert r).mp hx with he | hm
        · rw [he]
          exact hback a b hr
        · exact (List.pairwise_cons.mp hl).1 x hm
      · intro x hx
        exact ha x (List.mem_cons_of_mem b hx)

/-- Helper: insertion sort preserves a pairwise invariant `P` that holds
backwards wherever the sort relation fails — in particular the relative
order of elements tied under the sort key is preserved. -/
theorem pairwise_insertionSort {α : Type} (r : α → α → Prop) [DecidableRel r]
    (P : α → α → Prop) (hback : ∀ x y, ¬ r x y → P y x) :
    ∀ l : List α, l.Pairwise P → (l.insertionSort r).Pairwise P := by
  intro l
  induction l with
  | nil =>
    intro _
    simp
  | cons a tl ih =>
    intro hl
    rw [List.insertionSort]
    refine pairwise_orderedInsert r P hback a _ (ih hl.of_cons) ?_
    intro b hb
    exact (List.pairwise_cons.mp hl).1 b
      ((List.perm_insertionSort r tl).mem_iff.mp hb)

/-- Helper: the `groupby("Machine")` keys are strictly ascending. -/
theorem machineKeys_strict_sorted (t : Table) :
    (machineKeys t).Pairwise (fun a b : String => a < b) := by
  have hs : (machineKeys t).Pairwise (fun a b : String => a ≤ b) :=
    List.sorted_insertionSort (fun a b : String => a ≤ b) _
  have hn : (machineKeys t).Nodup :=
    (List.perm_insertionSort (fun a b : String => a ≤ b) _).nodup_iff.mpr
      (List.nodup_dedup _)
  exact (hs.and hn).imp (fun h => lt_of_le_of_ne h.1 h.2)

/-- C5 counterexample: with machines "B" (first-encountered) and "A" tied on
total positive delay 5, the ranking lists "A" first — `groupby` emits keys in
ascending name order and the stable descending value sort keeps that order —
not the first-encountered order the claim states. -/
theorem c5_tie_order_counterexample :
    delay_by_machine exT5 = [("A", (5:ℚ)), ("B", (5:ℚ))] ∧
    delay_by_machine exT5 ≠ [("B", (5:ℚ)), ("A", (5:ℚ))] := by
  have hA : machinePosSum exT5 "A" = 5 := by
    simp [machinePosSum, posRows, delayPos, exT5]
  have hB : machinePosSum exT5 "B" = 5 := by
    simp [machinePosSum, posRows, delayPos, exT5]
  have hBA : ¬ ("B" : String) ≤ "A" := by
    rw [String.le_iff_toList_le]
    decide
  have hkeys : machineKeys exT5 = ["A", "B"] := by
    have h0 : ((posRows exT5).filterMap (fun r => r.machine)).dedup = ["B", "A"] := rfl
    have h1 : machineKeys exT5 =
        List.insertionSort (fun a b : String => a ≤ b) ["B", "A"] := by
      rw [machineKeys, h0]
    rw [h1]
    simp [List.insertionSort, List.orderedInsert, hBA]
  have hcond : (exT5.hasDelay && exT5.hasMachine) = true := rfl
  have heq : delay_by_machine exT5 = [("A", (5:ℚ)), ("B", (5:ℚ))] := by
    rw [delay_by_machine, hcond, if_pos rfl, hkeys]
    simp [List.insertionSort, List.orderedInsert, sndDesc, hA, hB]
  refine ⟨heq, ?_⟩
  rw [heq]
  decide

/-- C5 amended: the machines ranking sums only strictly positive delays per
machine, has at most 3 entries, is descending by summed delay, and orders
ties by ascending machine name (the `groupby` key order, kept by the stable
value sort) — not by first-encountered record order. -/
theorem c5_machines_ranking_amended (t : Table)
    (hd : t.hasDelay = true) (hm : t.hasMachine = true) :
    (delay_by_machine t).length ≤ 3 ∧
    (delay_by_machine t).Pairwise (fun a b : String × ℚ => b.2 ≤ a.2) ∧
    (delay_by_machine t).Pairwise
      (fun a b : String × ℚ => a.2 = b.2 → a.1 < b.1) ∧
    (∀ p ∈ delay_by_machine t, p.2 = machinePosSum t p.1) := by
  have hdef : delay_by_machine t =
      (List.insertionSort sndDesc
        ((machineKeys t).map (fun m => (m, machinePosSum t m)))).take 3 := by
    simp [delay_by_machine, hd, hm]
  refine ⟨?_, ?_, ?_, ?_⟩
  · rw [hdef]
    exact List.length_take_le 3 _
  · rw [hdef]
    exact List.Pairwise.sublist (List.take_sublist 3 _)
      (List.sorted_insertionSort sndDesc _)
  · rw [hdef]
    refine List.Pairwise.sublist (List.take_sublist 3 _) ?_
    refine pairwise_insertionSort sndDesc _ ?_ _ ?_
    · intro x y hxy heq
      exact absurd (le_of_eq heq) hxy
    · rw [List.pairwise_map]
      exact (machineKeys_strict_sorted t).imp (fun h => fun _ => h)
  · intro p hp
    rw [hdef] at hp
    have hp2 : p ∈ (machineKeys t).map (fun m => (m, machinePosSum t m)) :=
      (List.perm_insertionSort sndDesc _).mem_iff.mp (List.mem_of_mem_take hp)
    rcases List.mem_map.mp hp2 with ⟨m, _, hpe⟩
    rw [← hpe]

/-- Witness for the amended C5 at the spec's worked example: one machine
with positive delays 50 and 150, one machine with only an early (negative)
delay. -/
theorem c5_machines_ranking_amended_witness :
    (exT2.hasDelay = true ∧ exT2.hasMachine = true) ∧
    ((delay_by_machine exT2).length ≤ 3 ∧
      (delay_by_machine exT2).Pairwise (fun a b : String × ℚ => b.2 ≤ a.2) ∧
      (delay_by_machine exT2).Pairwise
        (fun a b : String × ℚ => a.2 = b.2 → a.1 < b.1) ∧
      (∀ p ∈ delay_by_machine exT2, p.2 = machinePosSum exT2 p.1)) ∧
    delay_by_machine exT2 = [("M1", (200:ℚ))] := by
  refine ⟨⟨rfl, rfl⟩, c5_machines_ranking_amended exT2 rfl rfl, ?_⟩
  have hsum : machinePosSum exT2 "M1" = 200 := by
    have h0 : ((posRows exT2).filter
        (fun r => decide (r.machine = some "M1"))).filterMap
        (fun r => r.delay) = [(50:ℚ), 150] := rfl
    rw [machinePosSum, h0]
    norm_num
  have hkeys : machineKeys exT2 = ["M1"] := rfl
  have hcond : (exT2.hasDelay && exT2.hasMachine) = true := rfl
  rw [delay_by_machine, hcond, if_pos rfl, hkeys]
  simp [List.insertionSort, List.orderedInsert, hsum]

/-- C7: a pivot cell with exactly one contributing record has that record's
delay as its mean and an undefined (blank) sample std — `ddof = 1` leaves
`n - 1 = 0` samples, never a zero — and a cell with no contributing record
is absent (`none`), not zero. -/
theorem c7_pivot_cell (t : Table) (m : String) (d : SDate) :
    (pivotContrib t m d = [] → pivotMean t m d = none) ∧
    (∀ x : ℚ, pivotContrib t m d = [x] →
      pivotMean t m d = some x ∧ pivotStdSq t m d = none) := by
  constructor
  · intro h
    simp [pivotMean, h]
  · intro x h
    constructor
    · simp [pivotMean, h]
    · simp [pivotStdSq, h]

/-- Witness for C7: the cell (M1, 1 Jan) holds exactly the delay 50, so its
mean is 50 and its std is blank; the cell (M1, 2 Jan) has no record and is
absent. -/
theorem c7_pivot_cell_witness :
    (pivotContrib exT7 "M1" ⟨2024, 1, 1⟩ = [(50:ℚ)] ∧
      pivotMean exT7 "M1" ⟨2024, 1, 1⟩ = some 50 ∧
      pivotStdSq exT7 "M1" ⟨2024, 1, 1⟩ = none) ∧
    (pivotContrib exT7 "M1" ⟨2024, 1, 2⟩ = [] ∧
      pivotMean exT7 "M1" ⟨2024, 1, 2⟩ = none) := by
  have h1 : pivotContrib exT7 "M1" ⟨2024, 1, 1⟩ = [(50:ℚ)] := rfl
  have h2 : pivotContrib exT7 "M1" ⟨2024, 1, 2⟩ = [] := rfl
  have w1 := (c7_pivot_cell exT7 "M1" ⟨2024, 1, 1⟩).2 50 h1
  have w2 := (c7_pivot_cell exT7 "M1" ⟨2024, 1, 2⟩).1 h2
  exact ⟨⟨h1, w1.1, w1.2⟩, h2, w2⟩

/-- Helper: prefix sums of a list of naturals are non-decreasing. -/
theorem cumsum_pairwise_le : ∀ l : List ℕ, (cumsum l).Pairwise (fun a b : ℕ => a ≤ b)
  | [] => by simp [cumsum]
  | v :: vs => by
    rw [cumsum]
    refine List.Pairwise.cons ?_ ?_
    · intro b hb
      rcases List.mem_map.mp hb with ⟨c, _, rfl⟩
      exact Nat.le_add_right v c
    · rw [List.pairwise_map]
      exact (cumsum_pairwise_le vs).imp (fun h => Nat.add_le_add_left h v)

/-- Helper: `getLast?` of a cons with non-empty tail ignores the head. -/
theorem getLast_cons_ne_nil {α : Type} (a : α) (l : List α) (h : l ≠ []) :
    (a :: l).getLast? = l.getLast? := by
  cases l with
  | nil => exact absurd rfl h
  | cons b tl => exact List.getLast?_cons_cons

/-- Helper: the last prefix sum is the total. -/
theorem cumsum_getLast : ∀ l : List ℕ, l ≠ [] → (cumsum l).getLast? = some l.sum
  | [], h => absurd rfl h
  | v :: vs, _ => by
    rw [cumsum]
    by_cases hvs : vs = []
    · subst hvs
      simp [cumsum]
    · have hne : cumsum vs ≠ [] := by
        cases hv2 : vs with
        | nil => exact absurd hv2 hvs
        | cons w ws => rw [cumsum]; simp
      have hmapne : (cumsum vs).map (fun c => v + c) ≠ [] := by
        simpa using hne
      rw [getLast_cons_ne_nil _ _ hmapne, List.getLast?_map,
        cumsum_getLast vs hvs]
      simp

/-- Helper: the cumulative-percentage series is non-decreasing. -/
theorem cumulative_mono (vals : List ℕ) (hs : vals.sum ≠ 0) :
    (cumulative vals).Pairwise (fun a b : ℚ => a ≤ b) := by
  have hS : (0:ℚ) < (vals.sum : ℚ) := by
    exact_mod_cast Nat.pos_of_ne_zero hs
  simp only [cumulative]
  rw [List.pairwise_map]
  refine (cumsum_pairwise_le vals).imp ?_
  intro a b hab
  have hab2 : (a:ℚ) ≤ (b:ℚ) := by exact_mod_cast hab
  have h1 : (a:ℚ) / (vals.sum : ℚ) ≤ (b:ℚ) / (vals.sum : ℚ) :=
    (div_le_div_iff_of_pos_right hS).mpr hab2
  exact mul_le_mul_of_nonneg_right h1 (by norm_num)

/-- Helper: the cumulative-percentage series ends at exactly 100. -/
theorem cumulative_last (vals : List ℕ) (h : vals ≠ []) (hs : vals.sum ≠ 0) :
    (cumulative vals).getLast? = some 100 := by
  have hS : ((vals.sum : ℚ)) ≠ 0 := by exact_mod_cast hs
  simp only [cumulative]
  rw [List.getLast?_map, cumsum_getLast vals h]
  show some ((vals.sum : ℚ) / (vals.sum : ℚ) * 100) = some 100
  rw [div_self hS, one_mul]

/-- C8: the Pareto bars are the full (untruncated) per-reason frequency
distribution — every present reason appears, with its exact multiplicity —
in descending order, and the cumulative series `cumsum/total*100` is
non-decreasing and ends at exactly 100 (hence within any floating-point
tolerance). -/
theorem c8_pareto (t : Table) (_hR : t.hasReason = true)
    (hne : presentReasons t ≠ []) :
    (∀ s : String, s ∈ (count_by_reason t).map Prod.fst ↔ s ∈ presentReasons t) ∧
    (∀ p ∈ count_by_reason t, p.2 = (presentReasons t).count p.1) ∧
    (count_by_reason t).Pairwise (fun a b : String × ℕ => b.2 ≤ a.2) ∧
    (cumulative (chartValues t)).Pairwise (fun a b : ℚ => a ≤ b) ∧
    (cumulative (chartValues t)).getLast? = some 100 := by
  have hperm : List.Perm (count_by_reason t)
      (((presentReasons t).dedup).map
        (fun s => (s, (presentReasons t).count s))) :=
    List.perm_insertionSort _ _
  have hmem : ∀ p ∈ count_by_reason t,
      p.1 ∈ presentReasons t ∧ p.2 = (presentReasons t).count p.1 := by
    intro p hp
    rcases List.mem_map.mp (hperm.mem_iff.mp hp) with ⟨s, hs, rfl⟩
    exact ⟨List.mem_dedup.mp hs, rfl⟩
  have hvpos : ∀ v ∈ chartValues t, 0 < v := by
    intro v hv
    rcases List.mem_map.mp hv with ⟨p, hp, rfl⟩
    rw [(hmem p hp).2]
    exact List.count_pos_iff.mpr (hmem p hp).1
  have hvne : chartValues t ≠ [] := by
    rcases List.exists_mem_of_ne_nil _ hne with ⟨x, hx⟩
    have hx2 : (x, (presentReasons t).count x) ∈ count_by_reason t :=
      hperm.mem_iff.mpr
        (List.mem_map.mpr ⟨x, List.mem_dedup.mpr hx, rfl⟩)
    have : (x, (presentReasons t).count x).2 ∈ chartValues t :=
      List.mem_map.mpr ⟨_, hx2, rfl⟩
    intro hcon
    rw [hcon] at this
    simp at this
  have hsum : (chartValues t).sum ≠ 0 := by
    have := List.sum_pos (chartValues t) hvpos hvne
    exact Nat.pos_iff_ne_zero.mp this
  refine ⟨?_, fun p hp => (hmem p hp).2, ?_, cumulative_mono _ hsum,
    cumulative_last _ hvne hsum⟩
  · intro s
    rw [(hperm.map Prod.fst).mem_iff]
    constructor
    · intro hs
      rcases List.mem_map.mp hs with ⟨p, hp, rfl⟩
      rcases List.mem_map.mp hp with ⟨x, hx, rfl⟩
      exact List.mem_dedup.mp hx
    · intro hs
      exact List.mem_map.mpr ⟨(s, (presentReasons t).count s),
        List.mem_map.mpr ⟨s, List.mem_dedup.mpr hs, rfl⟩, rfl⟩
  · exact List.sorted_insertionSort sndDesc _

/-- Witness for C8: reasons Setup (twice) and Material (once). -/
theorem c8_pareto_witness :
    (exT8.hasReason = true ∧ presentReasons exT8 ≠ []) ∧
    ((∀ s : String, s ∈ (count_by_reason exT8).map Prod.fst ↔
        s ∈ presentReasons exT8) ∧
      (∀ p ∈ count_by_reason exT8, p.2 = (presentReasons exT8).count p.1) ∧
      (count_by_reason exT8).Pairwise (fun a b : String × ℕ => b.2 ≤ a.2) ∧
      (cumulative (chartValues exT8)).Pairwise (fun a b : ℚ => a ≤ b) ∧
      (cumulative (chartValues exT8)).getLast? = some 100) ∧
    count_by_reason exT8 = [("Setup", 2), ("Material", 1)] :=
  ⟨⟨rfl, by decide⟩, c8_pareto exT8 rfl (by decide), rfl⟩

/-- Helper: `getD` commutes with `map` inside the list's bounds. -/
theorem getD_map_of_lt {α β : Type} (f : α → β) (dA : α) (dB : β) :
    ∀ (l : List α) (i : Nat), i < l.length →
      (l.map f).getD i dB = f (l.getD i dA) := by
  intro l
  induction l with
  | nil =>
    intro i h
    simp at h
  | cons a tl ih =>
    intro i h
    cases i with
    | zero => simp
    | succ j =>
      simp only [List.map_cons, List.getD_cons_succ]
      exact ih j (Nat.lt_of_succ_lt_succ h)

/-- C9: a pie slice gets the non-zero explode offset 0.1 exactly when its
frequency equals the maximum frequency — all tied maxima are emphasized —
and gets offset 0 exactly when its frequency is below the maximum. -/
theorem c9_pie_explode (t : Table) (_hR : t.hasReason = true)
    (_hne : presentReasons t ≠ []) :
    (explode (chartValues t)).length = (chartValues t).length ∧
    ((1:ℚ)/10 ≠ 0) ∧
    (∀ i, i < (chartValues t).length →
      (((explode (chartValues t)).getD i 0 = 1/10 ↔
          (chartValues t).getD i 0 = maxVal (chartValues t)) ∧
        ((explode (chartValues t)).getD i 0 = 0 ↔
          ¬ (chartValues t).getD i 0 = maxVal (chartValues t)))) := by
  refine ⟨by simp [explode], by norm_num, ?_⟩
  intro i hi
  have hg : (explode (chartValues t)).getD i 0 =
      (fun v => if v = maxVal (chartValues t) then (1:ℚ)/10 else 0)
        ((chartValues t).getD i 0) := by
    simp only [explode]
    exact getD_map_of_lt _ 0 0 _ i hi
  rw [hg]
  by_cases hv : (chartValues t).getD i 0 = maxVal (chartValues t)
  · constructor
    · simp [hv]
    · simp [hv]
  · constructor
    · simp [hv]
    · simp [hv]

/-- Witness for C9: frequencies [2, 1]; only the maximal slice explodes. -/
theorem c9_pie_explode_witness :
    (exT8.hasReason = true ∧ presentReasons exT8 ≠ []) ∧
    ((explode (chartValues exT8)).length = (chartValues exT8).length ∧
      ((1:ℚ)/10 ≠ 0) ∧
      (∀ i, i < (chartValues exT8).length →
        (((explode (chartValues exT8)).getD i 0 = 1/10 ↔
            (chartValues exT8).getD i 0 = maxVal (chartValues exT8)) ∧
          ((explode (chartValues exT8)).getD i 0 = 0 ↔
            ¬ (chartValues exT8).getD i 0 = maxVal (chartValues exT8))))) ∧
    explode (chartValues exT8) = [1/10, 0] :=
  ⟨⟨rfl, by decide⟩, c9_pie_explode exT8 rfl (by decide), rfl⟩

/-- Helper: the mode scan yields a value on any non-empty list. -/
theorem pickMode_isSome (ds : List SDate) :
    ∀ l : List SDate, l ≠ [] → (pickMode ds l).isSome = true := by
  intro l
  cases l with
  | nil =>
    intro h
    exact absurd rfl h
  | cons d rest =>
    intro _
    rw [pickMode]
    cases hrest : pickMode ds rest with
    | none => rfl
    | some c =>
      dsimp only
      split <;> rfl

/-- Helper: the mode scan returns a value of maximal multiplicity. -/
theorem pickMode_count_le (ds : List SDate) :
    ∀ (l : List SDate) (c : SDate), pickMode ds l = some c →
      ∀ d ∈ l, ds.count d ≤ ds.count c := by
  intro l
  induction l with
  | nil =>
    intro c h
    simp [pickMode] at h
  | cons a rest ih =>
    intro c h d hd
    rw [pickMode] at h
    cases hrest : pickMode ds rest with
    | none =>
      rw [hrest] at h
      simp at h
      have hrest_nil : rest = [] := by
        cases hr2 : rest with
        | nil => rfl
        | cons x xs =>
          have hs := pickMode_isSome ds rest (by rw [hr2]; simp)
          rw [hrest] at hs
          simp at hs
      subst hrest_nil
      have hda : d = a := by simpa using hd
      rw [hda, h]
    | some c0 =>
      rw [hrest] at h
      simp only [] at h
      by_cases hP : ds.count c0 < ds.count a ∨
          (ds.count a = ds.count c0 ∧ dateLt a c0 = true)
      · rw [if_pos hP] at h
        have hc : a = c := by simpa using h
        have hc0a : ds.count c0 ≤ ds.count a := by
          rcases hP with h1 | h2
          · exact Nat.le_of_lt h1
          · exact Nat.le_of_eq h2.1.symm
        rcases List.mem_cons.mp hd with rfl | hdr
        · rw [hc]
        · calc ds.count d ≤ ds.count c0 := ih c0 hrest d hdr
            _ ≤ ds.count a := hc0a
            _ = ds.count c := by rw [hc]
      · rw [if_neg hP] at h
        have hc : c0 = c := by simpa using h
        rcases List.mem_cons.mp hd with rfl | hdr
        · push_neg at hP
          rw [← hc]
          exact hP.1
        · rw [← hc]
          exact ih c0 hrest d hdr

/-- C10: with the date column present and at least one parseable date, the
exported header date is a most-frequent parsed date (the column's mode),
derived on the main pass (outside the export handler) and formatted
day/month/year by `formatDMY`. -/
theorem c10_report_date (t : Table) (hD : t.hasDate = true)
    (hne : tableDates t ≠ []) :
    ∃ m : SDate, modeDate (tableDates t) = some m ∧
      (∀ d ∈ tableDates t, (tableDates t).count d ≤ (tableDates t).count m) ∧
      report_date t = Except.ok (ReportDate.date m) ∧
      report_date_str t = Except.ok (formatDMY m) := by
  obtain ⟨m, hm⟩ := Option.isSome_iff_exists.mp
    (pickMode_isSome (tableDates t) (tableDates t) hne)
  have hmode : modeDate (tableDates t) = some m := hm
  refine ⟨m, hmode, pickMode_count_le (tableDates t) (tableDates t) m hm,
    ?_, ?_⟩
  · simp [report_date, hD, hmode]
  · simp [report_date_str, report_date, hD, hmode]

/-- Witness for C10: 5 Jan 2024 occurs twice, 7 Jan 2024 once; the report
header shows "05/01/2024". -/
theorem c10_report_date_witness :
    (exT10.hasDate = true ∧ tableDates exT10 ≠ []) ∧
    (∃ m : SDate, modeDate (tableDates exT10) = some m ∧
      (∀ d ∈ tableDates exT10,
        (tableDates exT10).count d ≤ (tableDates exT10).count m) ∧
      report_date exT10 = Except.ok (ReportDate.date m) ∧
      report_date_str exT10 = Except.ok (formatDMY m)) ∧
    report_date_str exT10 = Except.ok "05/01/2024" :=
  ⟨⟨rfl, by decide⟩, c10_report_date exT10 rfl (by decide), rfl⟩

/-- Witness for C2 at a concrete table: 1 alerted job of 3 gives 33.33 %. -/
theorem c2_alert_rate_witness :
    (total_jobs exT2 ≠ 0 ∧
      alert_rate exT2 = pyRound2 ((num_alerts exT2 : ℚ) / (total_jobs exT2 : ℚ) * 100)) ∧
    alert_rate exT2 = 3333/100 := by
  have happ := (c2_alert_rate exT2).1 (by decide)
  refine ⟨⟨by decide, happ⟩, ?_⟩
  have hn : num_alerts exT2 = 1 := rfl
  have ht : total_jobs exT2 = 3 := rfl
  rw [happ, hn, ht]
  have hx : ((1:ℕ):ℚ) / ((3:ℕ):ℚ) * 100 = 100/3 := by norm_num
  rw [hx]
  have hfloor : ⌊((100:ℚ)/3 * 100)⌋ = 3333 := by
    rw [Int.floor_eq_iff]
    constructor <;> norm_num
  simp only [pyRound2, roundHalfEven]
  rw [hfloor]
  norm_num

end VarDash
